import Mathlib

/-!
Shallow embedding of `ExpireMap/expcache_golang/expcache.go`, the expiring
cache (Store + TimeoutManager) that the specification's §3-§5 describe.

Go machine integers (`int64` deadlines) are modelled as `Int`; the single
place where overflow can matter — the deadline computation in `Put` — wraps
explicitly through `int64wrap`.  Go's `map[interface{}]TimedData` is
modelled as an association list with the usual lookup/replace/delete
operations; `interface{}` keys and values become type parameters `K`, `V`
with decidable equality on keys (Go `==` on comparable interface values).
Operations that can panic in Go (indexing `keys[0]`, `close` of a closed
channel) return `Option`, with `none` for the panic.
-/

namespace ExpCache

/-- Largest `int64` value, `math.MaxInt64`; used by the code as the
"infinity" value of `nextPurgeTime` (expcache.go line 210, 389). -/
def maxInt64 : Int := 2 ^ 63 - 1

/-- Two's-complement wrap-around of Go `int64` arithmetic. -/
def int64wrap (n : Int) : Int := (n + 2 ^ 63) % 2 ^ 64 - 2 ^ 63

/-- Go struct `TimedData` specialised to the cache map's values:
a value together with its absolute expiry instant (expcache.go lines 33-36). -/
structure TimedData (V : Type) where
  data : V
  timeout : Int
deriving DecidableEq

/-- Go `Oper`: the two kinds of pending-log records (expcache.go lines 143-147). -/
inductive Oper where
  | ADD
  | DEL
deriving DecidableEq

/-- One pending-log record: Go stores `TimedData{data: *KeyOper{key,oper}, timeout}`
in `operLog`; flattened here into a single record (expcache.go lines 149-152, 178). -/
structure OpRec (K : Type) where
  key : K
  oper : Oper
  timeout : Int
deriving DecidableEq

/-- One ladder bucket: Go stores `TimedData{data: []interface{} (keys), timeout}`
in `timeouts`; flattened here (expcache.go line 187). -/
structure Bucket (K : Type) where
  keys : List K
  timeout : Int
deriving DecidableEq

/-- Go struct `TimeoutManager` (expcache.go lines 174-192).  The Go fields
`pendingRatio`/`pendingMax` are named `pendingFactor`/`pendingMax` here.
`reschedClosed` models whether the buffered channel `resched` has been
closed; `purgerRunning` models whether the `purger` goroutine has been
spawned (the `purgeTimer` object itself carries no further observable
state and is not modelled). -/
structure TimeoutManager (K : Type) where
  operLog : List (OpRec K)
  nextPurgeTime : Int
  cacheSize : Int
  timeouts : List (Bucket K)
  pendingFactor : Int
  pendingMax : Int
  reschedClosed : Bool
  purgerRunning : Bool
deriving DecidableEq

/-- Go struct `Cache` (expcache.go lines 40-47): the entry map plus the
timeout manager.  The `sync.RWMutex` is not state; client operations and
purger phases are modelled as the atomic steps the lock makes them. -/
structure Cache (K V : Type) where
  data : List (K × TimedData V)
  tm : TimeoutManager K
deriving DecidableEq

variable {K V : Type}

/-- Go map read `c.data[k]` (presence variant). -/
def lookupKey [DecidableEq K] (k : K) : List (K × TimedData V) → Option (TimedData V)
  | [] => none
  | (k', td) :: rest => if k = k' then some td else lookupKey k rest

/-- Go map write `c.data[k] = td`: replace in place if present, else add. -/
def storeKey [DecidableEq K] (k : K) (td : TimedData V) :
    List (K × TimedData V) → List (K × TimedData V)
  | [] => [(k, td)]
  | (k', td') :: rest =>
    if k = k' then (k, td) :: rest else (k', td') :: storeKey k td rest

/-- Go map delete `delete(c.data, k)`. -/
def eraseKey [DecidableEq K] (k : K) :
    List (K × TimedData V) → List (K × TimedData V)
  | [] => []
  | (k', td') :: rest => if k = k' then rest else (k', td') :: eraseKey k rest

/-- Go constant `DEF_OPER_LOG_TO_DATA_RATIO` (expcache.go line 138):
default factor bounding the pending log by a multiple of the entry count. -/
def DEF_OPER_LOG_TO_DATA_FACTOR : Int := 2

/-- Go constant `DEF_OPER_LOG_MAX_SIZE` (expcache.go line 140). -/
def DEF_OPER_LOG_MAX_SIZE : Int := 32

/-- Go `newTimeoutManager` (expcache.go lines 194-213).  `args` carries the
optional `pendingRatio`/`pendingMax` overrides.  Note `go c.purger()` on
line 211: the purger goroutine is spawned here, eagerly, so the returned
state has `purgerRunning := true`. -/
def newTimeoutManager (args : List Int) : TimeoutManager K :=
  { operLog := []
    nextPurgeTime := maxInt64
    cacheSize := 0
    timeouts := []
    pendingFactor := args.getD 0 DEF_OPER_LOG_TO_DATA_FACTOR
    pendingMax := args.getD 1 DEF_OPER_LOG_MAX_SIZE
    reschedClosed := false
    purgerRunning := true }

/-- Go `TimeoutManager.Close` (expcache.go lines 216-219): stops the timer
(no modelled state) and runs `close(c.resched)`.  Go panics when closing an
already-closed channel, modelled as `none`. -/
def TimeoutManager.Close (tm : TimeoutManager K) : Option (TimeoutManager K) :=
  if tm.reschedClosed then none else some { tm with reschedClosed := true }

/-- Go `pendingLimit` (expcache.go lines 262-268): `pl` starts as
ratio × size and is raised to `pendingMax` when below it. -/
def pendingLimit (tm : TimeoutManager K) : Int :=
  if tm.pendingFactor * tm.cacheSize < tm.pendingMax then tm.pendingMax
  else tm.pendingFactor * tm.cacheSize

/-- Go `appendAddOper` (expcache.go lines 223-238): records the schedule
change for a put, bumping `cacheSize` for a fresh entry (old timeout 0) or
appending a DEL for the replaced deadline, then appending the ADD; returns
whether the purger must be woken. -/
def appendAddOper (tm : TimeoutManager K) (key : K) (oTo nTo : Int) :
    TimeoutManager K × Bool :=
  let tm'' : TimeoutManager K :=
    { tm with
      cacheSize := if oTo = 0 then tm.cacheSize + 1 else tm.cacheSize
      operLog :=
        (if oTo = 0 then tm.operLog
         else tm.operLog ++ [⟨key, Oper.DEL, oTo⟩]) ++ [⟨key, Oper.ADD, nTo⟩] }
  (tm'', decide (oTo = tm''.nextPurgeTime ∨ nTo < tm''.nextPurgeTime ∨
    (tm''.operLog.length : Int) > pendingLimit tm''))

/-- Go `appendDelOper` (expcache.go lines 242-250). -/
def appendDelOper (tm : TimeoutManager K) (k : K) (tOld : Int) :
    TimeoutManager K × Bool :=
  let tm' : TimeoutManager K :=
    { tm with cacheSize := tm.cacheSize - 1
              operLog := tm.operLog ++ [⟨k, Oper.DEL, tOld⟩] }
  (tm', decide (tOld = tm'.nextPurgeTime ∨
    (tm'.operLog.length : Int) > pendingLimit tm'))

/-- Go `New` (expcache.go lines 50-55). -/
def New (args : List Int) : Cache K V :=
  { data := [], tm := newTimeoutManager args }

/-- Go `Cache.Close` (expcache.go lines 58-60), forwarding to the manager. -/
def Cache.Close (c : Cache K V) : Option (Cache K V) :=
  (c.tm.Close).map fun tm' => { c with tm := tm' }

/-- Go `Put` (expcache.go lines 63-81).  `now` stands for
`time.Now().UnixNano()`; the Boolean result records whether
`notifyResched` is called after the lock is released.  A non-positive
`timeoutMs` returns immediately.  The old timeout defaults to 0 (the Go
zero value of `TimedData`) when the key is absent. -/
def Put [DecidableEq K] (c : Cache K V) (k : K) (v : V) (timeoutMs : Int)
    (now : Int) : Cache K V × Bool :=
  if timeoutMs ≤ 0 then (c, false)
  else
    let oTo : Int :=
      match lookupKey k c.data with
      | some td => td.timeout
      | none => 0
    let nTo := int64wrap (now + timeoutMs * 1000000)
    let data' := storeKey k ⟨v, nTo⟩ c.data
    let r := appendAddOper c.tm k oTo nTo
    ({ data := data', tm := r.1 }, r.2)

/-- Go `Get` (expcache.go lines 84-92): the nil interface result for an
absent key becomes `none`. -/
def Get [DecidableEq K] (c : Cache K V) (k : K) : Option V :=
  (lookupKey k c.data).map TimedData.data

/-- Go `Remove` (expcache.go lines 95-111): returns the removed value (or
`none`), the new state, and whether `notifyResched` is called. -/
def Remove [DecidableEq K] (c : Cache K V) (k : K) :
    Option V × Cache K V × Bool :=
  match lookupKey k c.data with
  | none => (none, c, false)
  | some td =>
    let data' := eraseKey k c.data
    let r := appendDelOper c.tm k td.timeout
    (some td.data, { data := data', tm := r.1 }, r.2)

/-- Go `Size` (expcache.go lines 114-118). -/
def Size (c : Cache K V) : Nat := c.data.length

/-!  Purger-side operations (expcache.go lines 270-414).  Go's slice edits
`append(s[:i], s[i+1:]...)`, `s[i] = x` and insert-with-shift are written
as the `take`/`drop` decompositions they compute. -/

/-- Go `sort.Search(len(c.timeouts), fun n => c.timeouts[n].timeout >= t)`
(expcache.go lines 315-317): binary search returning, on a ladder sorted by
deadline (the predicate is then monotone), the least index whose deadline
is ≥ `t`, or the length when there is none. -/
def search (l : List (Bucket K)) (t : Int) : Nat :=
  l.findIdx fun b => decide (t ≤ b.timeout)

/-- Go `addKeyTimeout` (expcache.go lines 272-276): append `k` to the key
list of the bucket at index `i`.  An out-of-range index would panic
(`none`); the replay loop only passes valid indices. -/
def addKeyTimeout (k : K) (i : Nat) (l : List (Bucket K)) :
    Option (List (Bucket K)) :=
  match l[i]? with
  | none => none
  | some b => some (l.take i ++ ⟨b.keys ++ [k], b.timeout⟩ :: l.drop (i + 1))

/-- Go `delKeyTimeout` (expcache.go lines 278-300): drop the first
occurrence of `k` from the key list of bucket `i` (head checked first,
then a scan — together exactly erase-first-occurrence); if the list
empties, the bucket itself is removed.  The unconditional `keys[0]` access
panics on an empty key list (`none`). -/
def delKeyTimeout [DecidableEq K] (k : K) (i : Nat) (l : List (Bucket K)) :
    Option (List (Bucket K)) :=
  match l[i]? with
  | none => none
  | some b =>
    match b.keys with
    | [] => none
    | _ :: _ =>
      let keys' := b.keys.erase k
      if keys' = [] then some (l.take i ++ l.drop (i + 1))
      else some (l.take i ++ ⟨keys', b.timeout⟩ :: l.drop (i + 1))

/-- The not-found arm of the replay loop (expcache.go lines 325-334): an
ADD inserts a fresh bucket at position `i` (append one slot, shift right,
write `TimedData{make(...), t}` at `i`, i.e. insert-at-`i`) and then adds
the key there; any other record is skipped. -/
def applyOpInsert (l : List (Bucket K)) (kot : OpRec K) (i : Nat) :
    Option (List (Bucket K)) :=
  if kot.oper = Oper.ADD then
    addKeyTimeout kot.key i (l.take i ++ ⟨[], kot.timeout⟩ :: l.drop i)
  else some l

/-- One iteration of the replay loop of `updateTimeoutsFromPendingList`
(expcache.go lines 309-336): search for the record's deadline; on an exact
hit dispatch to del/add at that bucket, otherwise insert (ADD) or skip. -/
def applyOp [DecidableEq K] (l : List (Bucket K)) (kot : OpRec K) :
    Option (List (Bucket K)) :=
  match l[search l kot.timeout]? with
  | some b =>
    if b.timeout = kot.timeout then
      match kot.oper with
      | Oper.DEL => delKeyTimeout kot.key (search l kot.timeout) l
      | Oper.ADD => addKeyTimeout kot.key (search l kot.timeout) l
    else applyOpInsert l kot (search l kot.timeout)
  | none => applyOpInsert l kot (search l kot.timeout)

/-- The replay loop folded over the drained log, left to right (the `indx`
loop of expcache.go lines 309-336). -/
def replayOps [DecidableEq K] : List (OpRec K) → List (Bucket K) →
    Option (List (Bucket K))
  | [], l => some l
  | kot :: rest, l => (applyOp l kot).bind (replayOps rest)

/-- Go `updateTimeoutsFromPendingList` (expcache.go lines 302-338): under
the Store lock the pending log is taken and emptied, then (lock released)
replayed against the ladder. -/
def updateTimeoutsFromPendingList [DecidableEq K] (c : Cache K V) :
    Option (Cache K V) :=
  (replayOps c.tm.operLog c.tm.timeouts).map fun ts =>
    { c with tm := { c.tm with operLog := [], timeouts := ts } }

/-- The sweep loop of `deleteExpiredEntries` (expcache.go lines 349-361):
while the head bucket has expired, delete each of its keys from the entry
map — unconditionally — and pop the bucket. -/
def sweepLoop [DecidableEq K] (now : Int) :
    List (Bucket K) → List (K × TimedData V) →
    List (Bucket K) × List (K × TimedData V)
  | [], data => ([], data)
  | b :: bs, data =>
    if now < b.timeout then (b :: bs, data)
    else sweepLoop now bs (b.keys.foldl (fun d k => eraseKey k d) data)

/-- Go `deleteExpiredEntries` (expcache.go lines 340-362), including the
entry guard that returns unchanged when nothing has expired. -/
def deleteExpiredEntries [DecidableEq K] (now : Int) (c : Cache K V) :
    Cache K V :=
  match c.tm.timeouts with
  | [] => c
  | b :: _ =>
    if now < b.timeout then c
    else
      let r := sweepLoop now c.tm.timeouts c.data
      { data := r.2, tm := { c.tm with timeouts := r.1 } }

/-- Go `purgeAndResetTimer` (expcache.go lines 373-394): sweep, then (timer
rearming carries no modelled state) update `nextPurgeTime` to the new head
deadline, or to `math.MaxInt64` when the ladder is empty. -/
def purgeAndResetTimer [DecidableEq K] (now : Int) (c : Cache K V) :
    Cache K V :=
  let c' := deleteExpiredEntries now c
  match c'.tm.timeouts with
  | [] => { c' with tm := { c'.tm with nextPurgeTime := maxInt64 } }
  | b :: _ =>
    if c'.tm.nextPurgeTime ≠ b.timeout then
      { c' with tm := { c'.tm with nextPurgeTime := b.timeout } }
    else c'

/-- Go `handleResched` (expcache.go lines 364-370): replay the pending log,
then sweep and rearm.  The Store lock is NOT held across the two phases —
the purger releases it at the end of the log take-over and reacquires it in
the sweep — so a client `Put`/`Remove` may interleave between them. -/
def handleResched [DecidableEq K] (now : Int) (c : Cache K V) :
    Option (Cache K V) :=
  (updateTimeoutsFromPendingList c).map (purgeAndResetTimer now)

/-- The events the `purger` goroutine's `select` can wake on
(expcache.go lines 399-414): a receive from `resched` (with `ok = false`
exactly when the channel has been closed) or the purge timer firing. -/
inductive PurgerEvent where
  | resched (ok : Bool)
  | timerFire
deriving DecidableEq

/-- Whether the `purger` loop keeps running after handling one event
(expcache.go lines 400-413): the loop condition is `ok`, which only a
receive from a closed `resched` channel makes false — the timer case never
terminates the loop, so there is no idle-timeout exit. -/
def purgerLoopContinues : PurgerEvent → Bool
  | PurgerEvent.resched ok => ok
  | PurgerEvent.timerFire => true

/-- The ladder invariant of spec §3: buckets strictly sorted by deadline
(hence no two share one) and no bucket with an empty key list. -/
def LadderInv (l : List (Bucket K)) : Prop :=
  List.Pairwise (fun a b : Bucket K => a.timeout < b.timeout) l ∧
    ∀ b ∈ l, b.keys ≠ []

instance [DecidableEq K] (l : List (Bucket K)) : Decidable (LadderInv l) := by
  unfold LadderInv
  exact instDecidableAnd

/-!  Concrete executions used to settle individual claims.  Each trace is a
straight-line composition of the operations above from a fresh cache; the
interleavings chosen are exactly those the locking discipline of the code
permits (the Store lock is released between the two phases of
`handleResched`). -/

/-- Trace: `New`, `Put 0 ↦ 5` (1 ms) at time 0, a full purger cycle at
time 0, then — the purger having woken again at time 1000001 and finished
its (empty) log replay, with the Store lock released — the state just
before the client put of the next step. -/
def traceC1 : Option (Cache Nat Nat) :=
  (handleResched 0 (Put (New []) 0 5 1 0).1).bind updateTimeoutsFromPendingList

/-- Trace: a client `Put 0 ↦ 6` (5 ms) slips in at time 1000001, between
the purger's log replay and its expiry sweep. -/
def traceC1put : Option (Cache Nat Nat) :=
  traceC1.map fun c => (Put c 0 6 5 1000001).1

/-- Trace: the purger's sweep then runs at time 1000001. -/
def traceC1swept : Option (Cache Nat Nat) :=
  traceC1put.map (deleteExpiredEntries 1000001)

/-- Trace: two puts of the same key at time 0 (an insert then a replace),
with no purger activity in between. -/
def traceC2 : Cache Nat Nat :=
  (Put (Put (New []) 0 5 1 0).1 0 6 2 0).1

/-- Trace for the pending-log bound: configured with pendingRatio 2 and
pendingMax 0; keys 0 and 1 expire at 1 ms, key 2 at 100 ms.  A purger
cycle at time 0 builds the ladder, a second at 2 ms evicts keys 0 and 1
(without touching the manager's `cacheSize` counter), then key 3 is
inserted and replaced three times with deadlines beyond the parked target,
leaving seven pending records and no forced signal. -/
def traceC3 : Option (Cache Nat Nat × Bool) :=
  (handleResched 0
      (Put (Put (Put (New [2, 0]) 0 10 1 0).1 1 11 1 0).1 2 12 100 0).1).bind
    fun c =>
      (handleResched 2000000 c).map fun c' =>
        Put (Put (Put (Put c' 3 13 200 2000000).1 3 14 210 2000000).1
          3 15 220 2000000).1 3 16 230 2000000

/-- Trace: a single put followed by a remove, the purger never having run
(`nextPurgeTime` still at its initial `math.MaxInt64`). -/
def traceC5 : Option Nat × Cache Nat Nat × Bool :=
  Remove (Put (New [] : Cache Nat Nat) 0 5 1 0).1 0

/-- A manager state with a parked purger (`nextPurgeTime = 3`), used to
instantiate hypotheses of the append-operation theorems. -/
def tmSample : TimeoutManager Nat :=
  { newTimeoutManager [] with nextPurgeTime := 3 }

/-- A cache with one ladder bucket and one pending ADD, used to
instantiate the ladder-invariant theorems. -/
def cacheSample : Cache Nat Nat :=
  { data := [(1, ⟨10, 5⟩)]
    tm := { (newTimeoutManager [] : TimeoutManager Nat) with
              operLog := [⟨2, Oper.ADD, 9⟩]
              timeouts := [⟨[1], 5⟩] } }

/-- The state of `cacheSample` after its pending log has been replayed. -/
def cacheSample' : Cache Nat Nat :=
  { data := [(1, ⟨10, 5⟩)]
    tm := { (newTimeoutManager [] : TimeoutManager Nat) with
              operLog := []
              timeouts := [⟨[1], 5⟩, ⟨[2], 9⟩] } }

/-- The `pendingLimit` computation is the binary maximum. -/
theorem pendingLimit_eq_max (tm : TimeoutManager K) :
    pendingLimit tm = max tm.pendingMax (tm.pendingFactor * tm.cacheSize) := by
  unfold pendingLimit
  split <;> rename_i h <;> omega

/-- The sweep loop computes a `dropWhile`/`takeWhile` split of the ladder:
the surviving ladder drops every expired head bucket, and every key of
every expired bucket is erased from the entry map. -/
theorem sweepLoop_eq [DecidableEq K] (now : Int) (l : List (Bucket K))
    (d : List (K × TimedData V)) :
    sweepLoop now l d =
      (l.dropWhile fun b => decide (b.timeout ≤ now),
       (l.takeWhile fun b => decide (b.timeout ≤ now)).foldl
         (fun d' b => b.keys.foldl (fun d'' k => eraseKey k d'') d') d) := by
  induction l generalizing d with
  | nil => simp [sweepLoop]
  | cons b bs ih =>
    by_cases h : now < b.timeout
    · have hb : decide (b.timeout ≤ now) = false := by
        simp only [decide_eq_false_iff_not]; omega
      simp [sweepLoop, h, hb]
    · have hb : decide (b.timeout ≤ now) = true := by
        simp only [decide_eq_true_eq]; omega
      simp [sweepLoop, h, hb, ih]

/-- The state change of `deleteExpiredEntries`, in closed form. -/
theorem deleteExpired_spec [DecidableEq K] (now : Int) (c : Cache K V) :
    (deleteExpiredEntries now c).tm.timeouts =
      (c.tm.timeouts.dropWhile fun b => decide (b.timeout ≤ now)) ∧
    (deleteExpiredEntries now c).data =
      (c.tm.timeouts.takeWhile fun b => decide (b.timeout ≤ now)).foldl
        (fun d' b => b.keys.foldl (fun d'' k => eraseKey k d'') d') c.data := by
  rcases hts : c.tm.timeouts with _ | ⟨b, bs⟩
  · simp [deleteExpiredEntries, hts]
  · by_cases h : now < b.timeout
    · have hb : decide (b.timeout ≤ now) = false := by
        simp only [decide_eq_false_iff_not]; omega
      simp [deleteExpiredEntries, hts, h, hb]
    · simp only [deleteExpiredEntries, hts, if_neg h]
      rw [← hts, sweepLoop_eq]
      simp [hts]

/-- An element below the search position has a deadline strictly below the
searched one. -/
theorem search_take_lt (l : List (Bucket K)) (t : Int) :
    ∀ b ∈ l.take (search l t), b.timeout < t := by
  induction l with
  | nil => simp
  | cons hd tl ih =>
    by_cases h : t ≤ hd.timeout
    · have : search (hd :: tl) t = 0 := by
        simp [search, List.findIdx_cons, h]
      simp [this]
    · have hs : search (hd :: tl) t = search tl t + 1 := by
        simp only [search, List.findIdx_cons]
        have : decide (t ≤ hd.timeout) = false := by
          simp only [decide_eq_false_iff_not]; exact h
        simp [this]
      rw [hs]
      intro b hb
      rcases List.mem_cons.mp (by simpa using hb) with rfl | hb'
      · omega
      · exact ih b hb'

/-- The element at the search position, when there is one, has a deadline
at or above the searched one. -/
theorem search_getElem? (l : List (Bucket K)) (t : Int) :
    ∀ b, l[search l t]? = some b → t ≤ b.timeout := by
  induction l with
  | nil => simp
  | cons hd tl ih =>
    by_cases h : t ≤ hd.timeout
    · have : search (hd :: tl) t = 0 := by
        simp [search, List.findIdx_cons, h]
      simp only [this, List.getElem?_cons_zero]
      rintro b hb
      cases hb
      exact h
    · have hs : search (hd :: tl) t = search tl t + 1 := by
        simp only [search, List.findIdx_cons]
        have : decide (t ≤ hd.timeout) = false := by
          simp only [decide_eq_false_iff_not]; exact h
        simp [this]
      simpa [hs] using ih

/-- The search position never passes the end of the ladder. -/
theorem search_le_length (l : List (Bucket K)) (t : Int) :
    search l t ≤ l.length :=
  List.findIdx_le_length _

/-- A list splits around the element any in-range index points at. -/
theorem getElem?_split {α : Type} (l : List α) (i : Nat) (b : α)
    (h : l[i]? = some b) : l = l.take i ++ b :: l.drop (i + 1) := by
  obtain ⟨hi, hb⟩ := List.getElem?_eq_some.mp h
  conv_lhs => rw [← List.take_append_drop i l]
  rw [List.drop_eq_getElem_cons hi, hb]

/-- Reading back the middle of a `take`/`cons`/`drop` assembly. -/
theorem getElem?_append_cons {α : Type} (A : List α) (x : α) (B : List α) :
    (A ++ x :: B)[A.length]? = some x := by
  induction A with
  | nil => simp
  | cons a A ih => simpa using ih

/-- First component of a `take`/`cons`/`drop` assembly. -/
theorem take_append_cons {α : Type} (A : List α) (x : α) (B : List α) :
    (A ++ x :: B).take A.length = A := by
  induction A with
  | nil => rfl
  | cons a A ih => simp [ih]

/-- Last component of a `take`/`cons`/`drop` assembly. -/
theorem drop_append_cons {α : Type} (A : List α) (x : α) (B : List α) :
    (A ++ x :: B).drop (A.length + 1) = B := by
  induction A with
  | nil => rfl
  | cons a A ih => simp [ih]

/-- Strict sortedness survives replacing one bucket by another with the
same deadline. -/
theorem pairwise_replace {A B : List (Bucket K)} {b b' : Bucket K}
    (hp : List.Pairwise (fun a c : Bucket K => a.timeout < c.timeout)
      (A ++ b :: B))
    (ht : b'.timeout = b.timeout) :
    List.Pairwise (fun a c : Bucket K => a.timeout < c.timeout)
      (A ++ b' :: B) := by
  rw [List.pairwise_append] at hp ⊢
  obtain ⟨h1, h2, h3⟩ := hp
  rw [List.pairwise_cons] at h2 ⊢
  refine ⟨h1, ⟨fun c hc => ?_, h2.2⟩, fun a ha c hc => ?_⟩
  · rw [ht]; exact h2.1 c hc
  · rcases List.mem_cons.mp hc with rfl | hc'
    · rw [ht]; exact h3 a ha b (List.mem_cons_self _ _)
    · exact h3 a ha c (List.mem_cons_of_mem _ hc')

/-- The ladder invariant restricts to sublists. -/
theorem LadderInv_sublist {l l' : List (Bucket K)} (hs : List.Sublist l' l)
    (h : LadderInv l) : LadderInv l' :=
  ⟨h.1.sublist hs, fun b hb => h.2 b (hs.mem hb)⟩

/-- Closed form of `addKeyTimeout` at an in-range index. -/
theorem addKeyTimeout_eq [DecidableEq K] {l : List (Bucket K)} {i : Nat}
    {b : Bucket K} (hget : l[i]? = some b) (k : K) :
    addKeyTimeout k i l =
      some (l.take i ++ ⟨b.keys ++ [k], b.timeout⟩ :: l.drop (i + 1)) := by
  unfold addKeyTimeout
  rw [hget]

/-- Closed form of `delKeyTimeout` at an in-range index whose bucket has a
non-empty key list. -/
theorem delKeyTimeout_eq [DecidableEq K] {l : List (Bucket K)} {i : Nat}
    {b : Bucket K} (hget : l[i]? = some b) (hne : b.keys ≠ []) (k : K) :
    delKeyTimeout k i l =
      if b.keys.erase k = [] then some (l.take i ++ l.drop (i + 1))
      else some (l.take i ++ ⟨b.keys.erase k, b.timeout⟩ :: l.drop (i + 1)) := by
  obtain ⟨keys, bt⟩ := b
  cases keys with
  | nil => exact absurd rfl hne
  | cons k0 ks =>
    unfold delKeyTimeout
    rw [hget]

/-- Closed form of the insert arm for an ADD record. -/
theorem applyOpInsert_eq [DecidableEq K] (l : List (Bucket K)) (kot : OpRec K)
    (i : Nat) (hi : i ≤ l.length) (hop : kot.oper = Oper.ADD) :
    applyOpInsert l kot i =
      some (l.take i ++ ⟨[kot.key], kot.timeout⟩ :: l.drop i) := by
  unfold applyOpInsert
  rw [hop, if_pos rfl]
  have htake : (l.take i).length = i := by rw [List.length_take]; omega
  have hmid : (l.take i ++ (⟨[], kot.timeout⟩ : Bucket K) :: l.drop i)[i]? =
      some ⟨[], kot.timeout⟩ := by
    have h := getElem?_append_cons (l.take i) (⟨[], kot.timeout⟩ : Bucket K)
      (l.drop i)
    rwa [htake] at h
  rw [addKeyTimeout_eq hmid]
  have htk := take_append_cons (l.take i) (⟨[], kot.timeout⟩ : Bucket K)
    (l.drop i)
  have hdr := drop_append_cons (l.take i) (⟨[], kot.timeout⟩ : Bucket K)
    (l.drop i)
  rw [htake] at htk hdr
  rw [htk, hdr]
  simp

/-- Unfolding `applyOp` when the search runs off the end of the ladder. -/
theorem applyOp_none [DecidableEq K] {l : List (Bucket K)} {kot : OpRec K}
    (hget : l[search l kot.timeout]? = none) :
    applyOp l kot = applyOpInsert l kot (search l kot.timeout) := by
  unfold applyOp
  rw [hget]

/-- Unfolding `applyOp` when the search lands on a bucket. -/
theorem applyOp_some [DecidableEq K] {l : List (Bucket K)} {kot : OpRec K}
    {b : Bucket K} (hget : l[search l kot.timeout]? = some b) :
    applyOp l kot =
      if b.timeout = kot.timeout then
        match kot.oper with
        | Oper.DEL => delKeyTimeout kot.key (search l kot.timeout) l
        | Oper.ADD => addKeyTimeout kot.key (search l kot.timeout) l
      else applyOpInsert l kot (search l kot.timeout) := by
  unfold applyOp
  rw [hget]

/-- Strict sortedness of the ladder with a bucket inserted between the
buckets strictly below and strictly above its deadline. -/
theorem pairwise_insert_mid {l : List (Bucket K)} {i : Nat} {t : Int}
    {ks : List K}
    (hsort : List.Pairwise (fun a c : Bucket K => a.timeout < c.timeout) l)
    (hlt : ∀ b ∈ l.take i, b.timeout < t)
    (hgt : ∀ b ∈ l.drop i, t < b.timeout) :
    List.Pairwise (fun a c : Bucket K => a.timeout < c.timeout)
      (l.take i ++ (⟨ks, t⟩ : Bucket K) :: l.drop i) := by
  rw [List.pairwise_append]
  refine ⟨hsort.sublist (List.take_sublist _ _), ?_, ?_⟩
  · rw [List.pairwise_cons]
    exact ⟨fun c hc => hgt c hc, hsort.sublist (List.drop_sublist _ _)⟩
  · intro a ha c hc
    rcases List.mem_cons.mp hc with rfl | hc'
    · exact hlt a ha
    · exact lt_trans (hlt a ha) (hgt c hc')

/-- One replay step can never fault on a ladder satisfying the invariant,
and it preserves the invariant. -/
theorem applyOp_inv [DecidableEq K] (l : List (Bucket K)) (kot : OpRec K)
    (h : LadderInv l) :
    ∃ l', applyOp l kot = some l' ∧ LadderInv l' := by
  obtain ⟨hsort, hne⟩ := h
  have hil := search_le_length l kot.timeout
  cases hget : l[search l kot.timeout]? with
  | none =>
    rw [applyOp_none hget]
    have hlen : search l kot.timeout = l.length := by
      have h' := List.getElem?_eq_none_iff.mp hget
      omega
    cases hop : kot.oper with
    | DEL =>
      refine ⟨l, ?_, hsort, hne⟩
      simp [applyOpInsert, hop]
    | ADD =>
      rw [applyOpInsert_eq l kot _ hil hop]
      refine ⟨_, rfl, ?_, ?_⟩
      · refine pairwise_insert_mid hsort (search_take_lt l kot.timeout) ?_
        rw [hlen, List.drop_length]
        simp
      · intro b hb
        rcases List.mem_append.mp hb with hb' | hb'
        · exact hne b ((List.take_sublist _ _).mem hb')
        · rcases List.mem_cons.mp hb' with rfl | hb''
          · simp
          · exact hne b ((List.drop_sublist _ _).mem hb'')
  | some b =>
    have hmem : b ∈ l := List.getElem?_mem hget
    have hge : kot.timeout ≤ b.timeout := search_getElem? l kot.timeout b hget
    have hsplit := getElem?_split l _ b hget
    rw [applyOp_some hget]
    by_cases hbt : b.timeout = kot.timeout
    · rw [if_pos hbt]
      have hsort' : List.Pairwise (fun a c : Bucket K => a.timeout < c.timeout)
          (l.take (search l kot.timeout) ++
            b :: l.drop (search l kot.timeout + 1)) := by
        rw [← hsplit]
        exact hsort
      cases hop : kot.oper with
      | ADD =>
        rw [addKeyTimeout_eq hget]
        refine ⟨_, rfl, ?_, ?_⟩
        · exact pairwise_replace hsort' rfl
        · intro c hc
          rcases List.mem_append.mp hc with hc' | hc'
          · exact hne c ((List.take_sublist _ _).mem hc')
          · rcases List.mem_cons.mp hc' with rfl | hc''
            · simp
            · exact hne c ((List.drop_sublist _ _).mem hc'')
      | DEL =>
        have hbne : b.keys ≠ [] := hne b hmem
        rw [delKeyTimeout_eq hget hbne]
        have hsub : List.Sublist
            (l.take (search l kot.timeout) ++ l.drop (search l kot.timeout + 1))
            l := by
          conv_rhs => rw [hsplit]
          exact List.Sublist.append_left (List.sublist_cons_self _ _) _
        by_cases hemp : b.keys.erase kot.key = []
        · rw [if_pos hemp]
          exact ⟨_, rfl, LadderInv_sublist hsub ⟨hsort, hne⟩⟩
        · rw [if_neg hemp]
          refine ⟨_, rfl, ?_, ?_⟩
          · exact pairwise_replace hsort' rfl
          · intro c hc
            rcases List.mem_append.mp hc with hc' | hc'
            · exact hne c ((List.take_sublist _ _).mem hc')
            · rcases List.mem_cons.mp hc' with rfl | hc''
              · exact hemp
              · exact hne c ((List.drop_sublist _ _).mem hc'')
    · rw [if_neg hbt]
      cases hop : kot.oper with
      | DEL =>
        refine ⟨l, ?_, hsort, hne⟩
        simp [applyOpInsert, hop]
      | ADD =>
        rw [applyOpInsert_eq l kot _ hil hop]
        have hlt2 : search l kot.timeout < l.length := by
          rcases Nat.lt_or_ge (search l kot.timeout) l.length with h' | h'
          · exact h'
          · rw [List.getElem?_eq_none h'] at hget
            cases hget
        have hdropeq : l.drop (search l kot.timeout) =
            b :: l.drop (search l kot.timeout + 1) := by
          rw [List.drop_eq_getElem_cons hlt2]
          obtain ⟨_, hb⟩ := List.getElem?_eq_some_iff.mp hget
          rw [hb]
        refine ⟨_, rfl, ?_, ?_⟩
        · refine pairwise_insert_mid hsort (search_take_lt l kot.timeout) ?_
          rw [hdropeq]
          intro c hc
          rcases List.mem_cons.mp hc with rfl | hc'
          · omega
          · have hpair : List.Pairwise
                (fun a c : Bucket K => a.timeout < c.timeout)
                (b :: l.drop (search l kot.timeout + 1)) := by
              rw [← hdropeq]
              exact hsort.sublist (List.drop_sublist _ _)
            have hbc := (List.pairwise_cons.mp hpair).1 c hc'
            omega
        · intro c hc
          rcases List.mem_append.mp hc with hc' | hc'
          · exact hne c ((List.take_sublist _ _).mem hc')
          · rcases List.mem_cons.mp hc' with rfl | hc''
            · simp
            · exact hne c ((List.drop_sublist _ _).mem hc'')

/-- The whole replay preserves the ladder invariant and cannot fault. -/
theorem replayOps_inv [DecidableEq K] (ops : List (OpRec K))
    (l : List (Bucket K)) (h : LadderInv l) :
    ∃ l', replayOps ops l = some l' ∧ LadderInv l' := by
  induction ops generalizing l with
  | nil => exact ⟨l, rfl, h⟩
  | cons kot rest ih =>
    obtain ⟨l1, h1, hinv1⟩ := applyOp_inv l kot h
    obtain ⟨l2, h2, hinv2⟩ := ih l1 hinv1
    exact ⟨l2, by simp [replayOps, h1, h2], hinv2⟩

/-- C1: evaluation of the sweep at the failing interleaving.  In
`traceC1put` a replace has slipped in between the purger's log replay and
its sweep (the code releases the Store lock between the two phases): the
entry for key 0 has current deadline 6000001 while the expired head bucket
listing key 0 carries deadline 1000000; `deleteExpiredEntries` carries no
deadline comparison and deletes the entry anyway, so a live entry whose
deadline is almost 5 ms away vanishes from the Store. -/
theorem C1_failing :
    (traceC1put.map fun c => lookupKey 0 c.data) = some (some ⟨6, 6000001⟩) ∧
    (traceC1put.map fun c => c.tm.timeouts.map Bucket.timeout) =
      some [1000000] ∧
    (6000001 : Int) ≠ 1000000 ∧
    (traceC1swept.map fun c => lookupKey 0 c.data) = some none := by
  decide

/-- C2: a put that replaces an existing entry appends two separate records
(a DEL for the old deadline and an ADD for the new one) to the pending-op
log, with no coalescing: after an insert followed by a replace of key 0,
the log holds three records for that key, not at most one. -/
theorem C2_counterexample :
    (traceC2.tm.operLog.filter fun r => decide (r.key = 0)).length = 3 ∧
    ¬(traceC2.tm.operLog.filter fun r => decide (r.key = 0)).length ≤ 1 := by
  decide

/-- C2 amended: the pending-op log is a plain append-only list with no
coalescing and no REPLACE record shape; `appendAddOper` for an existing
entry (old timeout ≠ 0) appends the records DEL(oldTO) and ADD(newTO),
and for a fresh entry appends ADD(newTO) alone. -/
theorem C2_thm (tm : TimeoutManager K) (k : K) (oTo nTo : Int) :
    (oTo ≠ 0 → (appendAddOper tm k oTo nTo).1.operLog =
      tm.operLog ++ [⟨k, Oper.DEL, oTo⟩, ⟨k, Oper.ADD, nTo⟩]) ∧
    (oTo = 0 → (appendAddOper tm k oTo nTo).1.operLog =
      tm.operLog ++ [⟨k, Oper.ADD, nTo⟩]) := by
  constructor <;> intro h <;> simp [appendAddOper, h]

/-- Witness for `C2_thm` at a concrete replace and a concrete insert. -/
theorem C2_witness :
    (appendAddOper (newTimeoutManager [] : TimeoutManager Nat) 0 3 7).1.operLog =
      [⟨0, Oper.DEL, 3⟩, ⟨0, Oper.ADD, 7⟩] ∧
    (appendAddOper (newTimeoutManager [] : TimeoutManager Nat) 0 0 7).1.operLog =
      [⟨0, Oper.ADD, 7⟩] :=
  ⟨by simpa using (C2_thm (newTimeoutManager []) 0 3 7).1 (by decide),
   by simpa using (C2_thm (newTimeoutManager []) 0 0 7).2 rfl⟩

/-- C3: evaluation at the failing run.  The purger's evictions delete
entries from the Store without decrementing the manager's `cacheSize`
counter (whose own comment says it mirrors the cache size), so the bound
in terms of the actual entry count fails: in `traceC3` the final
`appendAddOper` forces no signal (`false`) although the log holds 7
records while the store holds 2 live entries and
`max(pendingMax, pendingRatio × 2) = max(0, 4) = 4 < 7`. -/
theorem C3_failing :
    (traceC3.map fun p =>
      (p.2, (p.1.tm.operLog.length : Int), (p.1.data.length : Int),
        p.1.tm.pendingMax, p.1.tm.pendingFactor)) =
      some (false, 7, 2, 0, 2) ∧
    ¬((7 : Int) ≤ max (0 : Int) (2 * 2)) := by
  decide

/-- The bound the code actually maintains: when `appendAddOper` or
`appendDelOper` returns without forcing a signal, the pending log is
bounded by `max(pendingMax, pendingRatio × cacheSize)` for the manager's
internal `cacheSize` counter (incremented on fresh puts, decremented on
removes, not decremented by purger evictions). -/
theorem pendingLog_bound (tm : TimeoutManager K) (k : K) (oTo nTo tOld : Int) :
    ((appendAddOper tm k oTo nTo).2 = false →
      ((appendAddOper tm k oTo nTo).1.operLog.length : Int) ≤
        max (appendAddOper tm k oTo nTo).1.pendingMax
          ((appendAddOper tm k oTo nTo).1.pendingFactor *
            (appendAddOper tm k oTo nTo).1.cacheSize)) ∧
    ((appendDelOper tm k tOld).2 = false →
      ((appendDelOper tm k tOld).1.operLog.length : Int) ≤
        max (appendDelOper tm k tOld).1.pendingMax
          ((appendDelOper tm k tOld).1.pendingFactor *
            (appendDelOper tm k tOld).1.cacheSize)) := by
  constructor <;>
    · intro h
      rw [← pendingLimit_eq_max]
      simp only [appendAddOper, appendDelOper, decide_eq_false_iff_not] at h ⊢
      push_neg at h
      first
      | exact h.2.2
      | exact h.2

/-- Witness for `pendingLog_bound`: a replace and a remove that force no
signal. -/
theorem pendingLog_bound_witness :
    ((appendAddOper tmSample 0 9 9).1.operLog.length : Int) ≤
      max (appendAddOper tmSample 0 9 9).1.pendingMax
        ((appendAddOper tmSample 0 9 9).1.pendingFactor *
          (appendAddOper tmSample 0 9 9).1.cacheSize) ∧
    ((appendDelOper tmSample 0 9).1.operLog.length : Int) ≤
      max (appendDelOper tmSample 0 9).1.pendingMax
        ((appendDelOper tmSample 0 9).1.pendingFactor *
          (appendDelOper tmSample 0 9).1.cacheSize) :=
  ⟨(pendingLog_bound tmSample 0 9 9 9).1 (by decide),
   (pendingLog_bound tmSample 0 9 9 9).2 (by decide)⟩

/-- C4: the purger worker is not created lazily — `newTimeoutManager`
(called from `New`) spawns the purger goroutine immediately, before any
reschedule signal exists; and the loop never exits on a timer event, so
there is no idle-timeout self-termination. -/
theorem C4_counterexample :
    (New ([] : List Int) : Cache Nat Nat).tm.purgerRunning = true ∧
    purgerLoopContinues PurgerEvent.timerFire = true := by
  decide

/-- C4 amended: the purger goroutine is spawned eagerly by
`newTimeoutManager` for every new cache and its loop terminates exactly on
receiving from the closed `resched` channel (i.e. after `Close`); it never
self-terminates after an idle interval. -/
theorem C4_thm (args : List Int) :
    (newTimeoutManager args : TimeoutManager K).purgerRunning = true ∧
    ∀ ev : PurgerEvent,
      purgerLoopContinues ev = false ↔ ev = PurgerEvent.resched false := by
  refine ⟨rfl, ?_⟩
  intro ev
  cases ev with
  | resched ok => cases ok <;> simp [purgerLoopContinues]
  | timerFire => simp [purgerLoopContinues]

/-- C5: the reschedule conditions are not exactly the four listed ones.
With the purger idle (`nextPurgeTime = math.MaxInt64`, its initial value),
a `Remove` reaches `appendDelOper`, which checks only the old-deadline and
log-size conditions; it returns `false` although the claim's first
condition (NextWakeupTime is infinity) holds. -/
theorem C5_counterexample :
    (Put (New [] : Cache Nat Nat) 0 5 1 0).1.tm.nextPurgeTime = maxInt64 ∧
    traceC5.2.2 = false := by
  decide

/-- C5 amended: `appendAddOper` returns true exactly when the old deadline
equals `nextPurgeTime`, the new deadline is earlier than `nextPurgeTime`
(which subsumes the purger-idle case for any deadline below
`math.MaxInt64`), or the log exceeds
`max(pendingMax, pendingRatio × cacheSize)`; `appendDelOper` checks only
the old-deadline and log-size conditions — the purger-idle condition is
not a separate check anywhere. -/
theorem C5_thm (tm : TimeoutManager K) (k : K) (oTo nTo tOld : Int)
    (h : nTo < maxInt64) :
    ((appendAddOper tm k oTo nTo).2 = true ↔
      (tm.nextPurgeTime = maxInt64 ∨ nTo < tm.nextPurgeTime ∨
        oTo = tm.nextPurgeTime ∨
        ((appendAddOper tm k oTo nTo).1.operLog.length : Int) >
          pendingLimit (appendAddOper tm k oTo nTo).1)) ∧
    ((appendDelOper tm k tOld).2 = true ↔
      (tOld = tm.nextPurgeTime ∨
        ((appendDelOper tm k tOld).1.operLog.length : Int) >
          pendingLimit (appendDelOper tm k tOld).1)) := by
  constructor
  · simp only [appendAddOper, decide_eq_true_eq]
    constructor
    · rintro (h' | h' | h')
      · exact Or.inr (Or.inr (Or.inl h'))
      · exact Or.inr (Or.inl h')
      · exact Or.inr (Or.inr (Or.inr h'))
    · rintro (h' | h' | h' | h')
      · exact Or.inr (Or.inl (h' ▸ h))
      · exact Or.inr (Or.inl h')
      · exact Or.inl h'
      · exact Or.inr (Or.inr h')
  · simp only [appendDelOper, decide_eq_true_eq]

/-- Witness for `C5_thm` at a parked manager. -/
theorem C5_witness :
    (9 : Int) < maxInt64 ∧
    ((appendAddOper tmSample 0 9 9).2 = true ↔
      (tmSample.nextPurgeTime = maxInt64 ∨ (9 : Int) < tmSample.nextPurgeTime ∨
        (9 : Int) = tmSample.nextPurgeTime ∨
        ((appendAddOper tmSample 0 9 9).1.operLog.length : Int) >
          pendingLimit (appendAddOper tmSample 0 9 9).1)) :=
  ⟨by decide, (C5_thm tmSample 0 9 9 9 (by decide)).1⟩

/-- C7: `Close` is not idempotent — closing the already-closed `resched`
channel panics in Go: the first close of a fresh cache succeeds, the
second one faults. -/
theorem C7_counterexample :
    ((New ([] : List Int) : Cache Nat Nat).Close).isSome = true ∧
    ((New ([] : List Int) : Cache Nat Nat).Close).bind Cache.Close = none := by
  decide

/-- C7 amended: `close()` may be called exactly once on a cache whose
channel is still open: that call succeeds, and any second `close()` on the
result panics (Go run-time fault on closing a closed channel) instead of
leaving the state unchanged. -/
theorem C7_thm (c : Cache K V) (h : c.tm.reschedClosed = false) :
    (Cache.Close c).isSome = true ∧
    (Cache.Close c).bind Cache.Close = none := by
  simp [Cache.Close, TimeoutManager.Close, h]

/-- Witness for `C7_thm` on a fresh cache. -/
theorem C7_witness :
    (New ([] : List Int) : Cache Nat Nat).tm.reschedClosed = false ∧
    ((New ([] : List Int) : Cache Nat Nat).Close).isSome = true ∧
    ((New ([] : List Int) : Cache Nat Nat).Close).bind Cache.Close = none :=
  ⟨rfl, C7_thm (New []) rfl⟩

/-- C8: a put with non-positive `timeoutMs` returns at once: the whole
state (entry map, pending log, ladder, `nextPurgeTime`) is unchanged and
no reschedule signal is issued. -/
theorem C8_thm [DecidableEq K] (c : Cache K V) (k : K) (v : V)
    (timeoutMs now : Int) (h : timeoutMs ≤ 0) :
    Put c k v timeoutMs now = (c, false) := by
  simp [Put, h]

/-- Witness for `C8_thm` at timeout 0 and at a negative timeout. -/
theorem C8_witness :
    (0 : Int) ≤ 0 ∧ Put (New [] : Cache Nat Nat) 0 5 0 7 = (New [], false) ∧
    Put (New [] : Cache Nat Nat) 1 6 (-2) 7 = (New [], false) :=
  ⟨le_refl 0, C8_thm (New []) 0 5 0 7 (le_refl 0),
    C8_thm (New []) 1 6 (-2) 7 (by decide)⟩

/-- C6: the ladder invariant — buckets strictly sorted by deadline (so no
two buckets share one) and no empty key list — is preserved by every
pending-log replay and by every expiry sweep. -/
theorem C6_thm [DecidableEq K] (c c' : Cache K V) (now : Int)
    (hinv : LadderInv c.tm.timeouts)
    (hrep : updateTimeoutsFromPendingList c = some c') :
    LadderInv c'.tm.timeouts ∧
    LadderInv (deleteExpiredEntries now c').tm.timeouts := by
  obtain ⟨ts, hts, hinv'⟩ := replayOps_inv c.tm.operLog c.tm.timeouts hinv
  have hc' : c'.tm.timeouts = ts := by
    simp only [updateTimeoutsFromPendingList, hts, Option.map_some'] at hrep
    injection hrep with h
    rw [← h]
  constructor
  · rw [hc']
    exact hinv'
  · rw [(deleteExpired_spec now c').1, hc']
    exact LadderInv_sublist (List.dropWhile_sublist _) hinv'

/-- Witness for `C6_thm`: a concrete replay then a sweep at time 7, which
expires the 5-deadline bucket and keeps the 9-deadline one. -/
theorem C6_witness :
    LadderInv cacheSample.tm.timeouts ∧
    updateTimeoutsFromPendingList cacheSample = some cacheSample' ∧
    LadderInv cacheSample'.tm.timeouts ∧
    LadderInv (deleteExpiredEntries 7 cacheSample').tm.timeouts :=
  ⟨by decide, by decide,
   C6_thm cacheSample cacheSample' 7 (by decide) (by decide)⟩

/-- C9: on a ladder satisfying the invariant the replay can never fault —
in particular every DEL dispatched to `delKeyTimeout` lands on a bucket
with a non-empty key list, so the unconditional `keys[0]` access cannot
panic — and a DEL whose bucket was already evicted (no bucket carries its
deadline) is ignored, leaving the ladder unchanged. -/
theorem C9_thm [DecidableEq K] (c : Cache K V)
    (hinv : LadderInv c.tm.timeouts) :
    (updateTimeoutsFromPendingList c).isSome = true ∧
    ∀ (k : K) (t : Int), (∀ b ∈ c.tm.timeouts, b.timeout ≠ t) →
      applyOp c.tm.timeouts ⟨k, Oper.DEL, t⟩ = some c.tm.timeouts := by
  constructor
  · obtain ⟨ts, hts, _⟩ := replayOps_inv c.tm.operLog c.tm.timeouts hinv
    simp [updateTimeoutsFromPendingList, hts]
  · intro k t hnb
    cases hget : c.tm.timeouts[search c.tm.timeouts t]? with
    | none =>
      rw [applyOp_none hget]
      simp [applyOpInsert]
    | some b =>
      have hbt : b.timeout ≠ t := hnb b (List.getElem?_mem hget)
      rw [applyOp_some hget, if_neg hbt]
      simp [applyOpInsert]

/-- Witness for `C9_thm`: the sample replay succeeds, and a DEL at the
unused deadline 4 leaves the sample ladder untouched. -/
theorem C9_witness :
    LadderInv cacheSample.tm.timeouts ∧
    (updateTimeoutsFromPendingList cacheSample).isSome = true ∧
    applyOp cacheSample.tm.timeouts ⟨3, Oper.DEL, 4⟩ =
      some cacheSample.tm.timeouts :=
  ⟨by decide, (C9_thm cacheSample (by decide)).1,
   (C9_thm cacheSample (by decide)).2 3 4 (by decide)⟩

/-- C10: `Remove` on a present key returns that key's current value and
deletes the entry from the map; on an absent key it returns the absent
value and leaves the cache exactly unchanged, with no signal. -/
theorem C10_thm [DecidableEq K] (c : Cache K V) (k : K) :
    (∀ td, lookupKey k c.data = some td →
      (Remove c k).1 = some td.data ∧
      (Remove c k).2.1.data = eraseKey k c.data) ∧
    (lookupKey k c.data = none → Remove c k = (none, c, false)) := by
  constructor
  · intro td h
    simp [Remove, h]
  · intro h
    simp [Remove, h]

/-- Witness for `C10_thm`: a present key and an absent key. -/
theorem C10_witness :
    (Remove (⟨[(1, ⟨42, 9⟩)], newTimeoutManager []⟩ : Cache Nat Nat) 1).1 =
      some 42 ∧
    Remove (⟨[(1, ⟨42, 9⟩)], newTimeoutManager []⟩ : Cache Nat Nat) 2 =
      (none, ⟨[(1, ⟨42, 9⟩)], newTimeoutManager []⟩, false) :=
  ⟨((C10_thm (⟨[(1, ⟨42, 9⟩)], newTimeoutManager []⟩ : Cache Nat Nat) 1).1
      ⟨42, 9⟩ (by decide)).1,
   (C10_thm (⟨[(1, ⟨42, 9⟩)], newTimeoutManager []⟩ : Cache Nat Nat) 2).2
      (by decide)⟩

end ExpCache
